import Mathlib

/-!
# Verification of the `ex_stl` decomposition NIF

This development embeds the C++ NIF binding `c_src/stl_nif.cpp` (the only
source file available) together with a model of the STL/MSTL engine it calls.
The engine lives in `stl.hpp`, which is included by the binding but is not part
of the available sources; wherever a definition models that missing engine it
is marked `Modelled from the spec:` in its doc comment and follows the design
document (§4.1–§4.5, §6, §7) rather than code.

Numbers are represented by exact rationals.  The narrowing of incoming Erlang
numbers to 32-bit floats performed by `to_vector_float` is modelled by an
explicit round-to-nearest-even IEEE binary32 rounding function on `ℚ`.
-/

namespace ExStl

/-! ## IEEE binary32 rounding on ℚ -/

/-- Round a rational to the nearest integer, ties to even
(the rounding used by `static_cast<float>` under the default FP environment). -/
def rne (q : ℚ) : ℤ :=
  let f := ⌊q⌋
  let r := q - f
  if r < 1/2 then f
  else if 1/2 < r then f + 1
  else if f % 2 = 0 then f else f + 1

/-- Fuelled binary logarithm: `log2fuel f n` is `⌊log₂ n⌋` whenever the fuel
`f` is at least the number of halvings needed, in particular when `f = n`. -/
def log2fuel : ℕ → ℕ → ℕ
  | 0, _ => 0
  | f + 1, n => if n ≤ 1 then 0 else log2fuel f (n / 2) + 1

/-- `⌊log₂ n⌋` for `n ≥ 1` (and `0` for `n = 0`). -/
def natLog2 (n : ℕ) : ℕ := log2fuel n n

/-- `⌈log₂ n⌉` for `n ≥ 1` (and `0` for `n ≤ 1`). -/
def natClog2 (n : ℕ) : ℕ := if n ≤ 1 then 0 else natLog2 (n - 1) + 1

/-- `⌊log₂ q⌋` for a positive rational `q`. -/
def ratLog2 (q : ℚ) : ℤ :=
  if 1 ≤ q then (natLog2 ⌊q⌋₊ : ℤ) else -(natClog2 ⌈q⁻¹⌉₊ : ℤ)

/-- The exact rational value of the IEEE binary32 float nearest to `q`
(round to nearest, ties to even; subnormals handled by clamping the exponent
at −126; overflow beyond the finite range is not modelled, as no input in this
development approaches it). -/
def f32 (q : ℚ) : ℚ :=
  if q = 0 then 0
  else
    let s : ℚ := if q < 0 then -1 else 1
    let x := |q|
    let e : ℤ := max (ratLog2 x) (-126)
    let scale : ℚ := (2 : ℚ) ^ (e - 23)
    s * (rne (x / scale) : ℚ) * scale

/-! ## Erlang terms and series decoding (`to_vector_float`, stl_nif.cpp:98-125) -/

/-- A NIF-level Erlang term as far as the series decoder can distinguish them:
a float (carrying its exact rational value), an integer, or anything else. -/
inductive ErlTerm where
  | float (q : ℚ)
  | int (n : ℤ)
  | other
  deriving DecidableEq, Repr

/-- The series argument term: either a proper list of terms or a non-list. -/
inductive ErlSeries where
  | list (xs : List ErlTerm)
  | nonList
  deriving DecidableEq, Repr

/-- `enif_get_int` only succeeds for integers representable in a C `int`
(32-bit on the supported platforms). -/
def intFits (n : ℤ) : Bool := decide (-(2 ^ 31) ≤ n) && decide (n < 2 ^ 31)

/-- An element the decoder accepts: a float term, or an integer term that
fits in a C `int`. -/
def goodElem : ErlTerm → Bool
  | .float _ => true
  | .int n => intFits n
  | .other => false

/-- The rational value the decoder stores for an accepted element:
the binary32 narrowing of its numeric value. -/
def elemVal : ErlTerm → ℚ
  | .float q => f32 q
  | .int n => f32 (n : ℚ)
  | .other => 0

/-- Decode one list element exactly as the loop body of `to_vector_float`
does: try `enif_get_double` (succeeds only for float terms), then
`enif_get_int` (succeeds only for `int`-range integers), else throw. -/
def decodeElem : ErlTerm → Except String ℚ
  | .float q => .ok (f32 q)
  | .int n =>
      if intFits n then .ok (f32 (n : ℚ))
      else .error "List elements must be numbers"
  | .other => .error "List elements must be numbers"

/-- `to_vector_float` (stl_nif.cpp:98-125): requires a list term, decodes each
element to a number and narrows it to binary32, throwing
`std::invalid_argument` on a non-list or a non-numeric element. -/
def to_vector_float : ErlSeries → Except String (List ℚ)
  | .nonList => .error "Expected a list"
  | .list xs => xs.mapM decodeElem

/-! ## Strength metrics (stl_nif.cpp:245-255 over the engine's formulas) -/

/-- Population variance (divide by `N`, not `N − 1`); `0` on the empty list. -/
def popVar (xs : List ℚ) : ℚ :=
  let n : ℚ := xs.length
  let mean := xs.sum / n
  ((xs.map fun x => (x - mean) ^ 2).sum) / n

/-- Modelled from the spec: the strength computation of `StlResult` in
`stl.hpp` (not under the available sources). Per §6 it fails when the two
component sequences differ in length; per §4.5 it returns
`max(0, 1 − Var(remainder)/Var(component + remainder))` with population
variance, returning `0` outright when the denominator variance is `0`. -/
def strength (component remainder : List ℚ) : Except String ℚ :=
  if component.length ≠ remainder.length then
    .error "components must have the same length"
  else
    let sr := List.zipWith (· + ·) component remainder
    let varR := popVar remainder
    let varSR := popVar sr
    if varSR = 0 then .ok 0 else .ok (max 0 (1 - varR / varSR))

/-- `seasonal_strength` NIF (stl_nif.cpp:245-249): builds an `StlResult` from
the supplied seasonal and remainder components and asks it for the seasonal
strength. -/
def seasonal_strength (seasonal remainder : List ℚ) : Except String ℚ :=
  strength seasonal remainder

/-- `trend_strength` NIF (stl_nif.cpp:251-255): builds an `StlResult` from the
supplied trend and remainder components and asks it for the trend strength. -/
def trend_strength (trend remainder : List ℚ) : Except String ℚ :=
  strength trend remainder

/-! ## Parameter model (`ExStlParams`, stl_nif.cpp:55-95, and `convert_params`,
stl_nif.cpp:128-153) -/

/-- The Elixir `%Stl.Params{}` struct decoded by the NIF: every field is
optional (`nil` leaves the engine default in place). -/
structure ExStlParams where
  seasonal_length : Option ℤ := none
  trend_length : Option ℤ := none
  low_pass_length : Option ℤ := none
  seasonal_degree : Option ℤ := none
  trend_degree : Option ℤ := none
  low_pass_degree : Option ℤ := none
  seasonal_jump : Option ℤ := none
  trend_jump : Option ℤ := none
  low_pass_jump : Option ℤ := none
  inner_loops : Option ℤ := none
  outer_loops : Option ℤ := none
  robust : Option Bool := none
  iterations : Option ℤ := none
  lambda : Option ℚ := none
  seasonal_lengths : Option (List ℤ) := none
  deriving Repr

/-- Modelled from the spec: `stl::StlParams`, the engine's builder-style
configuration record (`stl.hpp` is not part of the available sources).  Per §9
each setter is an immutable value update of one optional field, so the record
is just the set of optional fields the binding can populate. -/
structure StlParams where
  seasonal_length : Option ℤ := none
  trend_length : Option ℤ := none
  low_pass_length : Option ℤ := none
  seasonal_degree : Option ℤ := none
  trend_degree : Option ℤ := none
  low_pass_degree : Option ℤ := none
  seasonal_jump : Option ℤ := none
  trend_jump : Option ℤ := none
  low_pass_jump : Option ℤ := none
  inner_loops : Option ℤ := none
  outer_loops : Option ℤ := none
  robust : Option Bool := none
  deriving Repr

/-- `convert_params` (stl_nif.cpp:128-153): starting from the engine defaults,
apply each Elixir field that is present through the corresponding setter. -/
def convert_params (ex : ExStlParams) : StlParams :=
  { seasonal_length := ex.seasonal_length
    trend_length := ex.trend_length
    low_pass_length := ex.low_pass_length
    seasonal_degree := ex.seasonal_degree
    trend_degree := ex.trend_degree
    low_pass_degree := ex.low_pass_degree
    seasonal_jump := ex.seasonal_jump
    trend_jump := ex.trend_jump
    low_pass_jump := ex.low_pass_jump
    inner_loops := ex.inner_loops
    outer_loops := ex.outer_loops
    robust := ex.robust }

/-- The fully defaulted and validated configuration the engine runs with. -/
structure StlCfg where
  ns : ℕ
  nt : ℕ
  nl : ℕ
  isdeg : ℕ
  itdeg : ℕ
  ildeg : ℕ
  nsjump : ℕ
  ntjump : ℕ
  nljump : ℕ
  ni : ℕ
  no : ℕ
  robust : Bool
  deriving Repr

/-- Smallest odd number that is at least `max v 3`. -/
def mkWindow (v : ℕ) : ℕ :=
  let w := max v 3
  if w % 2 = 0 then w + 1 else w

/-- Modelled from the spec: parameter defaulting and validation performed by
the engine before fitting (`stl.hpp` not under the available sources).  §3
requires every window length to be odd and at least the minimum implied by its
degree, degrees to be 0 or 1, jumps to be positive and at most the paired
window, and §3/§4.2 require `outer_loops` forced to ≥ 1 when `robust`; window
lengths are auto-derived from the period when unset (the spec leaves the
derivation expression open, so representative odd values are used).  Out-of-
range values are clamped into range, matching the spec's silence on any
further failure mode for `fit_single` beyond period and length (§6). -/
def effCfg (p : StlParams) (period : ℕ) : StlCfg :=
  let robust := p.robust.getD false
  let ns := mkWindow (p.seasonal_length.getD (10 * (period : ℤ) + 1)).toNat
  let nt := mkWindow (p.trend_length.getD (2 * (period : ℤ) + 1)).toNat
  let nl := mkWindow (p.low_pass_length.getD (period : ℤ)).toNat
  { ns := ns
    nt := nt
    nl := nl
    isdeg := min 1 (p.seasonal_degree.getD 1).toNat
    itdeg := min 1 (p.trend_degree.getD 1).toNat
    ildeg := min 1 (p.low_pass_degree.getD 1).toNat
    nsjump := min ns (max 1 (p.seasonal_jump.getD 1).toNat)
    ntjump := min nt (max 1 (p.trend_jump.getD 1).toNat)
    nljump := min nl (max 1 (p.low_pass_jump.getD 1).toNat)
    ni := (p.inner_loops.getD (if robust then 1 else 2)).toNat
    no := max (p.outer_loops.getD (if robust then 15 else 0)).toNat
      (if robust then 1 else 0)
    robust := robust }

/-! ## Loess smoother (Modelled from the spec, §4.1) -/

/-- Tricube weight for a neighbor at distance `d` when the furthest neighbor
in the window is at distance `dmax`: `(1 − (d/dmax)³)³`. -/
def tricube (d dmax : ℚ) : ℚ := (1 - (d / dmax) ^ 3) ^ 3

/-- Start index of the window of `q` nearest grid neighbors of position `i`
in `0..n-1`: the ideal symmetric window clamped into the sequence, so edge
windows shift inward and still use exactly `q` points when `n ≥ q`. -/
def windowStart (n q i : ℕ) : ℕ :=
  if n ≤ q then 0 else min (n - q) (i - min i ((q - 1) / 2))

/-- Weighted mean of the window values `ys` under weights `ws`; degrades to
the unweighted mean when all weights vanish. -/
def weightedMean (ys ws : List ℚ) : ℚ :=
  let sw := ws.sum
  if sw = 0 then ys.sum / (ys.length : ℚ)
  else (List.zipWith (· * ·) ws ys).sum / sw

/-- Weighted degree-1 least squares through points `(x, y)` with weights `w`,
evaluated at `x₀`; falls back to the weighted mean when the design is
degenerate (zero denominator). -/
def wlsAt (pts : List (ℚ × ℚ × ℚ)) (x₀ : ℚ) : ℚ :=
  let sw := (pts.map fun p => p.1).sum
  let sx := (pts.map fun p => p.1 * p.2.1).sum
  let sy := (pts.map fun p => p.1 * p.2.2).sum
  let sxx := (pts.map fun p => p.1 * p.2.1 ^ 2).sum
  let sxy := (pts.map fun p => p.1 * p.2.1 * p.2.2).sum
  let den := sw * sxx - sx ^ 2
  if den = 0 then weightedMean (pts.map fun p => p.2.2) (pts.map fun p => p.1)
  else
    let slope := (sw * sxy - sx * sy) / den
    let intercept := (sy - slope * sx) / sw
    intercept + slope * x₀

/-- Modelled from the spec: one exactly computed Loess value at grid position
`i` of the series `ys` with per-observation (robustness) weights `rw`
(§4.1).  The window is the `q` nearest indices (shifted inward at the edges),
weights are tricube in the distance normalized by the largest in-window
distance — with a graceful fall to the unweighted mean when that distance is
zero — multiplied by the robustness weights; degree 0 takes the weighted
mean, degree 1 evaluates the weighted least-squares line at `i`. -/
def loessAt (ys rw : List ℚ) (q deg i : ℕ) : ℚ :=
  let n := ys.length
  let q' := min q n
  let s := windowStart n q' i
  let idxs := (List.range q').map (s + ·)
  let dmax : ℚ := max ((i : ℚ) - (s : ℚ)) ((s + q' - 1 : ℚ) - (i : ℚ))
  let wAt : ℕ → ℚ := fun k =>
    let base := if dmax = 0 then 1 else tricube |((k : ℚ) - (i : ℚ))| dmax
    base * rw.getD k 1
  if deg = 0 then
    weightedMean (idxs.map fun k => ys.getD k 0) (idxs.map wAt)
  else
    wlsAt (idxs.map fun k => (wAt k, (k : ℚ), ys.getD k 0)) (i : ℚ)

/-- Modelled from the spec: the full Loess pass over a sequence (§4.1).  With
a jump stride `j`, only positions divisible by `j` (and the final position)
are computed exactly; the rest are linearly interpolated between the two
bracketing computed positions. -/
def loessSmooth (ys rw : List ℚ) (q deg j : ℕ) : List ℚ :=
  let n := ys.length
  let j' := max 1 j
  let exact : ℕ → ℚ := fun i => loessAt ys rw q deg i
  (List.range n).map fun i =>
    if i % j' = 0 ∨ i = n - 1 then exact i
    else
      let lo := i / j' * j'
      let hi := min (lo + j') (n - 1)
      if hi = lo then exact lo
      else
        let t : ℚ := ((i : ℚ) - (lo : ℚ)) / ((hi : ℚ) - (lo : ℚ))
        (1 - t) * exact lo + t * exact hi

/-! ## STL engine (Modelled from the spec, §4.2–§4.3) -/

/-- Number of observations in the cycle-subseries of phase `ph` (indices
`ph, ph + p, ph + 2p, …` below `n`). -/
def subLen (n p ph : ℕ) : ℕ := (n - ph + p - 1) / p

/-- Elementwise difference, truncating to the shorter list. -/
def lsub (a b : List ℚ) : List ℚ := List.zipWith (· - ·) a b

/-- `y − s − t` elementwise: the remainder of §4.2's OuterCheck. -/
def sub3 (y s t : List ℚ) : List ℚ := lsub (lsub y s) t

/-- Modelled from the spec: cycle-subseries smoothing (§4.2 step 2).  The
detrended series is partitioned into `p` interleaved subsequences, each is
Loess-smoothed with the seasonal window/degree/jump and the current
robustness weights, each smoothed subseries is extended by one cycle at both
ends (the spec does not fix the extension values; the nearest smoothed value
is repeated), and the results are reassembled into a sequence covering one
extra cycle before and after the data span. -/
def cycleSmooth (detrended rw : List ℚ) (cfg : StlCfg) (p : ℕ) : List ℚ :=
  let n := detrended.length
  let extSub : ℕ → List ℚ := fun ph =>
    let m := subLen n p ph
    let vals := (List.range m).map fun k => detrended.getD (ph + k * p) 0
    let ws := (List.range m).map fun k => rw.getD (ph + k * p) 1
    let smoothed := loessSmooth vals ws cfg.ns cfg.isdeg cfg.nsjump
    smoothed.headD 0 :: (smoothed ++ [smoothed.getLastD 0])
  (List.range (n + 2 * p)).map fun i => (extSub (i % p)).getD (i / p) 0

/-- Length-3 centered moving average with edge clamping (the spec's §4.2
step 3 low-pass building block; it does not specify boundary handling, so the
window is clamped at the ends and the length is preserved). -/
def ma3 (xs : List ℚ) : List ℚ :=
  let m := xs.length
  (List.range m).map fun i =>
    (xs.getD (i - 1) 0 + xs.getD i 0 + xs.getD (min (i + 1) (m - 1)) 0) / 3

/-- The central span of a sequence extended by `p` positions at both ends. -/
def middle (p : ℕ) (xs : List ℚ) : List ℚ :=
  (xs.drop p).take (xs.length - 2 * p)

/-- Modelled from the spec: one pass of the inner loop (§4.2 steps 1–6),
mapping the current trend estimate to the new `(seasonal, trend)` pair. -/
def innerOnce (y rw : List ℚ) (cfg : StlCfg) (p : ℕ) (trend : List ℚ) :
    List ℚ × List ℚ :=
  let detrended := lsub y trend
  let seasonalExt := cycleSmooth detrended rw cfg p
  let lowInput := ma3 (ma3 (ma3 seasonalExt))
  let low := loessSmooth lowInput (List.replicate lowInput.length 1)
    cfg.nl cfg.ildeg cfg.nljump
  let seasonal := lsub (middle p seasonalExt) (middle p low)
  let deseason := lsub y seasonal
  let trend' := loessSmooth deseason rw cfg.nt cfg.itdeg cfg.ntjump
  (seasonal, trend')

/-- Modelled from the spec: the inner loop run `k` times (§4.2,
`inner_loops` iterations per outer pass). -/
def iterInner (y rw : List ℚ) (cfg : StlCfg) (p : ℕ) :
    ℕ → List ℚ × List ℚ → List ℚ × List ℚ
  | 0, st => st
  | k + 1, st => iterInner y rw cfg p k (innerOnce y rw cfg p st.2)

/-- Median of a list of rationals (`0` on the empty list; the mean of the two
central order statistics for even lengths). -/
def median (xs : List ℚ) : ℚ :=
  let sorted := xs.mergeSort (· ≤ ·)
  let n := xs.length
  if n = 0 then 0
  else if n % 2 = 1 then sorted.getD (n / 2) 0
  else (sorted.getD (n / 2 - 1) 0 + sorted.getD (n / 2) 0) / 2

/-- The bisquare kernel: `(1 − u²)²` for `u < 1`, else `0`. -/
def bisquare (u : ℚ) : ℚ := if u < 1 then (1 - u ^ 2) ^ 2 else 0

/-- Modelled from the spec: robustness weighting (§4.3).  With
`h = 6 × median(|remainder|)`, every weight is `bisquare(|rᵢ| / h)`, and all
weights are `1` when `h` is zero. -/
def bisquareWeights (r : List ℚ) : List ℚ :=
  let h := 6 * median (r.map fun x => |x|)
  if h = 0 then List.replicate r.length 1
  else r.map fun x => bisquare (|x| / h)

/-- The engine's single-period fit output. -/
structure StlRes where
  seasonal : List ℚ
  trend : List ℚ
  remainder : List ℚ
  weights : List ℚ
  deriving Repr

/-- Modelled from the spec: one outer robustness pass (§4.2 OuterCheck with
`robust` on): recompute the weights from the current remainder and rerun the
inner loop on the current state. -/
def robustStep (y : List ℚ) (cfg : StlCfg) (p : ℕ)
    (st : List ℚ × List ℚ × List ℚ) : List ℚ × List ℚ × List ℚ :=
  let w' := bisquareWeights (sub3 y st.1 st.2.1)
  let st' := iterInner y w' cfg p cfg.ni (st.1, st.2.1)
  (st'.1, st'.2, w')

/-- Modelled from the spec: the validated single-period STL computation
(§4.2).  The trend starts at zero and the robustness weights at one; the
inner loop runs `inner_loops` times per outer pass; with `robust` off there
is a single outer pass, with `robust` on there are `outer_loops` passes (no
early exit), each later pass recomputing the weights from the current
remainder; the remainder is `series − seasonal − trend` and the final
weights are returned. -/
def fitCore (y : List ℚ) (p : ℕ) (cfg : StlCfg) : StlRes :=
  let n := y.length
  let w0 : List ℚ := List.replicate n 1
  let t0 : List ℚ := List.replicate n 0
  let first := iterInner y w0 cfg p cfg.ni (t0, t0)
  let extra := if cfg.robust then max cfg.no 1 - 1 else 0
  let fin := (robustStep y cfg p)^[extra] (first.1, first.2, w0)
  { seasonal := fin.1
    trend := fin.2.1
    remainder := sub3 y fin.1 fin.2.1
    weights := fin.2.2 }

/-- Modelled from the spec: `stl::StlParams::fit` (`stl.hpp` is not under the
available sources).  Per §4.2/§6 it fails with `std::invalid_argument` when
the period is below 2 or the series holds fewer than two full periods, before
any computation; otherwise it runs the validated STL computation on the
defaulted configuration. -/
def StlParams.fit (prm : StlParams) (y : List ℚ) (period : ℕ) :
    Except String StlRes :=
  if period < 2 then .error "period must be at least 2"
  else if y.length < period * 2 then .error "series has less than two periods"
  else .ok (fitCore y period (effCfg prm period))

/-! ## `decompose` NIF (stl_nif.cpp:156-179) -/

/-- The `decompose` NIF: decode the series term, reject periods below 2,
convert the parameter struct and fit; return the four components, with the
weights replaced by the empty list unless `include_weights` was passed. -/
def decompose (series_term : ErlSeries) (period : ℤ) (ex_params : ExStlParams)
    (include_weights : Bool) :
    Except String (List ℚ × List ℚ × List ℚ × List ℚ) :=
  (to_vector_float series_term).bind fun series =>
    if period < 2 then .error "period must be greater than 1"
    else
      ((convert_params ex_params).fit series period.toNat).bind fun r =>
        if include_weights then .ok (r.seasonal, r.trend, r.remainder, r.weights)
        else .ok (r.seasonal, r.trend, r.remainder, [])

/-- Modelled from the spec: the host-side `fit_single` wrapper (the Elixir
module invoking the NIF is not under the available sources).  §3 states the
result's weights are the robustness weights and are empty when `robust` is
disabled, so the wrapper requests weights exactly when the `robust` flag is
set. -/
def fit_single (series_term : ErlSeries) (period : ℤ) (ex_params : ExStlParams) :
    Except String (List ℚ × List ℚ × List ℚ × List ℚ) :=
  decompose series_term period ex_params (ex_params.robust.getD false)

/-! ## MSTL engine (Modelled from the spec, §4.4) and `decompose_multi`
(stl_nif.cpp:182-242) -/

/-- The engine's multi-period fit output (per-period seasonal components,
shared trend and remainder). -/
structure MstlRes where
  seasonal : List (List ℚ)
  trend : List ℚ
  remainder : List ℚ
  deriving Repr

/-- Elementwise sum, truncating to the shorter list. -/
def ladd (a b : List ℚ) : List ℚ := List.zipWith (· + ·) a b

/-- Modelled from the spec: the MSTL iteration (§4.4).  Trend and all
seasonal accumulators start at zero; each of `iterations` passes refits one
single-outer-loop STL per period against the series minus the pass-start
trend and the other periods' seasonal components, stores its seasonal output
and carries the last fit's trend; the remainder is the series minus the final
trend and all seasonal components.  Per-period `seasonal_lengths` overrides
replace the shared seasonal window.  (The §4.4 power transform maps through
real logarithms/powers and is applied before this computation; its value is
not representable over `ℚ` and no property verified here concerns transformed
values, so the series enters untransformed.) -/
def mstlCore (stlp : StlParams) (iterations : ℕ) (slOpt : Option (List ℤ))
    (y : List ℚ) (periods : List ℕ) : MstlRes :=
  let n := y.length
  let k := periods.length
  let cfgAt : ℕ → StlCfg := fun idx =>
    let base :=
      match slOpt with
      | some sl => { stlp with seasonal_length := some (sl.getD idx 0) }
      | none => stlp
    let cfg := effCfg base (periods.getD idx 2)
    { cfg with no := min cfg.no 1 }
  let pass : List (List ℚ) × List ℚ → List (List ℚ) × List ℚ := fun st =>
    let startTrend := st.2
    (List.range k).foldl
      (fun acc idx =>
        let others := ((List.range k).filter (· ≠ idx)).foldl
          (fun s j => ladd s (acc.1.getD j [])) (List.replicate n 0)
        let deseas := lsub (lsub y startTrend) others
        let r := fitCore deseas (periods.getD idx 2) (cfgAt idx)
        (acc.1.set idx r.seasonal, r.trend))
      st
  let fin := pass^[iterations] (List.replicate k (List.replicate n 0),
    List.replicate n 0)
  let totalSeas := fin.1.foldl ladd (List.replicate n 0)
  { seasonal := fin.1
    trend := fin.2
    remainder := lsub (lsub y fin.2) totalSeas }

/-- Modelled from the spec: `stl::MstlParams::fit` (`stl.hpp` is not under
the available sources).  §4.4 has it fail fast on an empty period list, a
period below 2, or a series shorter than two full periods; §3 requires a
present `seasonal_lengths` override to match the number of periods; §4.4/§7
reject a non-positive series when a power-transform `lambda` is set.  All
validation precedes the decomposition. -/
def mstlFit (stlp : StlParams) (iterations : ℕ) (lambda : Option ℚ)
    (slOpt : Option (List ℤ)) (y : List ℚ) (periods : List ℕ) :
    Except String MstlRes :=
  if periods.isEmpty then .error "periods must not be empty"
  else if periods.any (fun p => p < 2) then .error "periods must be at least 2"
  else if periods.any (fun p => y.length < 2 * p) then
    .error "series has less than two periods"
  else if slOpt.any (fun sl => sl.length != periods.length) then
    .error "seasonal_lengths must have the same length as periods"
  else if lambda.isSome && !(y.all fun x => 0 < x) then
    .error "series must be positive"
  else .ok (mstlCore stlp iterations slOpt y periods)

/-- The per-period validation loop of `decompose_multi`
(stl_nif.cpp:196-208): reject any period below 2 and any period more than
half the series length, converting the surviving periods to `size_t`. -/
def checkPeriods (series : List ℚ) : List ℤ → Except String (List ℕ)
  | [] => .ok []
  | p :: rest =>
    if p < 2 then .error "periods must be at least 2"
    else if series.length < 2 * p.toNat then
      .error "series has less than two periods"
    else (checkPeriods series rest).map (p.toNat :: ·)

/-- The `decompose_multi` NIF: decode the series term, reject an empty period
list, validate and convert each period, build the MSTL parameters from the
struct (`iterations` is kept at least 1 per §3; the engine default is 2) and
fit; the weights slot of the returned tuple is always the empty list. -/
def decompose_multi (series_term : ErlSeries) (periods : List ℤ)
    (ex_params : ExStlParams) :
    Except String (List (List ℚ) × List ℚ × List ℚ × List ℚ) :=
  (to_vector_float series_term).bind fun series =>
    if periods.isEmpty then .error "periods must not be empty"
    else
      (checkPeriods series periods).bind fun ps =>
        (mstlFit (convert_params ex_params) (max 1 (ex_params.iterations.getD 2).toNat)
            ex_params.lambda ex_params.seasonal_lengths series ps).bind fun r =>
          .ok (r.seasonal, r.trend, r.remainder, [])

/-- The weights slot of a `decompose_multi` outcome (empty on failure). -/
def multiWeights (r : Except String (List (List ℚ) × List ℚ × List ℚ × List ℚ)) :
    List ℚ :=
  match r with
  | .ok t => t.2.2.2
  | .error _ => []

/-! ## Length bookkeeping for the engine pipeline -/

theorem loessSmooth_length (ys rw : List ℚ) (q d j : ℕ) :
    (loessSmooth ys rw q d j).length = ys.length := by
  simp [loessSmooth]

theorem ma3_length (xs : List ℚ) : (ma3 xs).length = xs.length := by
  simp [ma3]

theorem cycleSmooth_length (detrended rw : List ℚ) (cfg : StlCfg) (p : ℕ) :
    (cycleSmooth detrended rw cfg p).length = detrended.length + 2 * p := by
  simp [cycleSmooth]

theorem middle_length (p : ℕ) (xs : List ℚ) :
    (middle p xs).length = xs.length - 2 * p := by
  simp only [middle, List.length_take, List.length_drop]
  omega

theorem lsub_length (a b : List ℚ) :
    (lsub a b).length = min a.length b.length := by
  simp [lsub]

theorem sub3_length (y s t : List ℚ) :
    (sub3 y s t).length = min (min y.length s.length) t.length := by
  simp [sub3, lsub_length]

theorem innerOnce_length (y rw : List ℚ) (cfg : StlCfg) (p : ℕ) (t : List ℚ)
    (ht : t.length = y.length) :
    (innerOnce y rw cfg p t).1.length = y.length ∧
      (innerOnce y rw cfg p t).2.length = y.length := by
  constructor <;>
    · simp only [innerOnce, loessSmooth_length, lsub_length, middle_length,
        cycleSmooth_length, ma3_length, ht]
      omega

theorem iterInner_length (y rw : List ℚ) (cfg : StlCfg) (p : ℕ) :
    ∀ (k : ℕ) (st : List ℚ × List ℚ), st.1.length = y.length →
      st.2.length = y.length →
      (iterInner y rw cfg p k st).1.length = y.length ∧
        (iterInner y rw cfg p k st).2.length = y.length
  | 0, _, h1, h2 => ⟨h1, h2⟩
  | k + 1, st, _, h2 => by
    have h := innerOnce_length y rw cfg p st.2 h2
    exact iterInner_length y rw cfg p k _ h.1 h.2

theorem bisquareWeights_length (r : List ℚ) :
    (bisquareWeights r).length = r.length := by
  simp only [bisquareWeights]
  split <;> simp

theorem robustStep_length (y : List ℚ) (cfg : StlCfg) (p : ℕ)
    (st : List ℚ × List ℚ × List ℚ) (h1 : st.1.length = y.length)
    (h2 : st.2.1.length = y.length) :
    (robustStep y cfg p st).1.length = y.length ∧
      (robustStep y cfg p st).2.1.length = y.length ∧
      (robustStep y cfg p st).2.2.length = y.length := by
  have hiter := iterInner_length y (bisquareWeights (sub3 y st.1 st.2.1)) cfg p
    cfg.ni (st.1, st.2.1) h1 h2
  refine ⟨hiter.1, hiter.2, ?_⟩
  simp only [robustStep, bisquareWeights_length, sub3_length, h1, h2]
  omega

theorem iterate_robustStep_length (y : List ℚ) (cfg : StlCfg) (p : ℕ) :
    ∀ (m : ℕ) (st : List ℚ × List ℚ × List ℚ), st.1.length = y.length →
      st.2.1.length = y.length → st.2.2.length = y.length →
      ((robustStep y cfg p)^[m] st).1.length = y.length ∧
        ((robustStep y cfg p)^[m] st).2.1.length = y.length ∧
        ((robustStep y cfg p)^[m] st).2.2.length = y.length
  | 0, _, h1, h2, h3 => ⟨h1, h2, h3⟩
  | m + 1, st, h1, h2, h3 => by
    rw [Function.iterate_succ_apply]
    have h := robustStep_length y cfg p st h1 h2
    exact iterate_robustStep_length y cfg p m _ h.1 h.2.1 h.2.2

/-- The shape facts about `fitCore` every claim needs: all four components
have the series' length and the remainder is exactly
`series − seasonal − trend`. -/
theorem fitCore_shape (y : List ℚ) (p : ℕ) (cfg : StlCfg) :
    (fitCore y p cfg).seasonal.length = y.length ∧
      (fitCore y p cfg).trend.length = y.length ∧
      (fitCore y p cfg).weights.length = y.length ∧
      (fitCore y p cfg).remainder =
        sub3 y (fitCore y p cfg).seasonal (fitCore y p cfg).trend := by
  have hfirst := iterInner_length y (List.replicate y.length 1) cfg p cfg.ni
    (List.replicate y.length 0, List.replicate y.length 0)
    (by simp) (by simp)
  have hfin := iterate_robustStep_length y cfg p
    (if cfg.robust then max cfg.no 1 - 1 else 0)
    ((iterInner y (List.replicate y.length 1) cfg p cfg.ni
        (List.replicate y.length 0, List.replicate y.length 0)).1,
      (iterInner y (List.replicate y.length 1) cfg p cfg.ni
        (List.replicate y.length 0, List.replicate y.length 0)).2,
      List.replicate y.length 1)
    hfirst.1 hfirst.2 (by simp)
  exact ⟨hfin.1, hfin.2.1, hfin.2.2, rfl⟩

theorem sub3_getD (y s t : List ℚ) (i : ℕ) (hy : i < y.length)
    (hs : i < s.length) (ht : i < t.length) :
    (sub3 y s t).getD i 0 = y.getD i 0 - s.getD i 0 - t.getD i 0 := by
  have h3 : i < (sub3 y s t).length := by
    rw [sub3_length]
    omega
  rw [List.getD_eq_getElem _ _ h3, List.getD_eq_getElem _ _ hy,
    List.getD_eq_getElem _ _ hs, List.getD_eq_getElem _ _ ht]
  simp only [sub3, lsub, List.getElem_zipWith]

theorem fitCore_remainder_length (y : List ℚ) (p : ℕ) (cfg : StlCfg) :
    (fitCore y p cfg).remainder.length = y.length := by
  have h := fitCore_shape y p cfg
  rw [h.2.2.2, sub3_length, h.1, h.2.1]
  omega

/-! ## Fit-level helper lemmas -/

theorem exceptBind_ok {α β : Type} (a : α) (f : α → Except String β) :
    (Except.ok a).bind f = f a := rfl

theorem exceptBind_error {α β : Type} (e : String) (f : α → Except String β) :
    (Except.error e : Except String α).bind f = .error e := rfl

theorem exceptMap_ok {α β : Type} (a : α) (f : α → β) :
    (Except.ok a : Except String α).map f = .ok (f a) := rfl

theorem exceptMap_error {α β : Type} (e : String) (f : α → β) :
    (Except.error e : Except String α).map f = .error e := rfl

theorem fit_eq_ok (prm : StlParams) (y : List ℚ) (period : ℕ)
    (h2 : 2 ≤ period) (hlen : period * 2 ≤ y.length) :
    prm.fit y period = .ok (fitCore y period (effCfg prm period)) := by
  unfold StlParams.fit
  rw [if_neg (by omega), if_neg (by omega)]

theorem decompose_eq_ok (t : ErlSeries) (series : List ℚ) (period : ℤ)
    (ex : ExStlParams) (iw : Bool) (hdec : to_vector_float t = .ok series)
    (h2 : 2 ≤ period) (hlen : 2 * period.toNat ≤ series.length) :
    decompose t period ex iw =
      .ok ((fitCore series period.toNat (effCfg (convert_params ex) period.toNat)).seasonal,
        (fitCore series period.toNat (effCfg (convert_params ex) period.toNat)).trend,
        (fitCore series period.toNat (effCfg (convert_params ex) period.toNat)).remainder,
        if iw then
          (fitCore series period.toNat (effCfg (convert_params ex) period.toNat)).weights
        else []) := by
  unfold decompose
  simp only [hdec, exceptBind_ok]
  rw [if_neg (show ¬period < 2 by omega)]
  simp only [fit_eq_ok (convert_params ex) series period.toNat (by omega) (by omega),
    exceptBind_ok]
  cases iw <;> simp

/-- The shared concrete decoding fact used by the witnesses below: the series
term `[1, 2, 1, 2]` decodes to the rationals `[1, 2, 1, 2]` (both values are
exactly representable in binary32). -/
theorem to_vector_float_1212 :
    to_vector_float (.list [.int 1, .int 2, .int 1, .int 2]) = .ok [1, 2, 1, 2] := by
  norm_num [to_vector_float, List.mapM.loop, decodeElem, intFits, f32, ratLog2,
    natLog2, log2fuel, rne, Except.instMonad, Except.bind, Except.pure]

/-! ## Claims about `fit_single` / `decompose` -/

/-- **C7.** Every call to `decompose` with `period < 2` (in particular
`period = 1`) fails with an `InvalidArgument` error (every error this binding
throws is a `std::invalid_argument`) before any decomposition work, whatever
the series term and parameters: the period guard precedes the engine call,
and a malformed series term also only produces the decoder's
`invalid_argument`. -/
theorem c7_period_lt_two_fails (t : ErlSeries) (period : ℤ) (ex : ExStlParams)
    (iw : Bool) (h : period < 2) :
    ∃ e, decompose t period ex iw = .error e := by
  cases htv : to_vector_float t with
  | error e =>
    refine ⟨e, ?_⟩
    unfold decompose
    rw [htv, exceptBind_error]
  | ok series =>
    refine ⟨"period must be greater than 1", ?_⟩
    unfold decompose
    simp only [htv, exceptBind_ok]
    rw [if_pos h]

/-- Witness for C7 at `period = 1`. -/
theorem c7_period_lt_two_fails_witness :
    ∃ e, decompose (.list []) 1 {} false = .error e :=
  c7_period_lt_two_fails (.list []) 1 {} false (by norm_num)

/-- **C2.** For `decompose` with `period ≥ 2` on a well-decoded series: a
series shorter than `2 × period` is rejected with an error before any
computation, and a series of length exactly `2 × period` or more yields a
successful `Result`. -/
theorem c2_length_boundary (t : ErlSeries) (series : List ℚ) (period : ℤ)
    (ex : ExStlParams) (iw : Bool) (hdec : to_vector_float t = .ok series)
    (h2 : 2 ≤ period) :
    (series.length < 2 * period.toNat →
      ∃ e, decompose t period ex iw = .error e) ∧
    (2 * period.toNat ≤ series.length →
      ∃ out, decompose t period ex iw = .ok out) := by
  constructor
  · intro hshort
    refine ⟨"series has less than two periods", ?_⟩
    unfold decompose
    simp only [hdec, exceptBind_ok]
    rw [if_neg (show ¬period < 2 by omega)]
    unfold StlParams.fit
    rw [if_neg (show ¬period.toNat < 2 by omega),
      if_pos (show series.length < period.toNat * 2 by omega)]
    rw [exceptBind_error]
  · intro hlen
    exact ⟨_, decompose_eq_ok t series period ex iw hdec h2 hlen⟩

/-- Witness for C2: length 4 with period 2 (exactly two periods) succeeds;
the same series with period 3 (length `2 × 3 − 2 < 6`) fails. -/
theorem c2_length_boundary_witness :
    (∃ out, decompose (.list [.int 1, .int 2, .int 1, .int 2]) 2 {} false = .ok out) ∧
    (∃ e, decompose (.list [.int 1, .int 2, .int 1, .int 2]) 3 {} false = .error e) := by
  constructor
  · exact (c2_length_boundary _ [1, 2, 1, 2] 2 {} false to_vector_float_1212
      (by norm_num)).2 (by norm_num [Int.toNat])
  · exact (c2_length_boundary _ [1, 2, 1, 2] 3 {} false to_vector_float_1212
      (by norm_num)).1 (by norm_num [Int.toNat])

/-- **C1.** For every valid call to `decompose` (period ≥ 2, decoded series
at least two periods long), the call succeeds and the returned components
satisfy `seasonal + trend + remainder = series` element-wise — exactly in the
rational model, hence within the claimed `1e-4` relative tolerance. -/
theorem c1_reconstruction (t : ErlSeries) (series : List ℚ) (period : ℤ)
    (ex : ExStlParams) (iw : Bool) (hdec : to_vector_float t = .ok series)
    (h2 : 2 ≤ period) (hlen : 2 * period.toNat ≤ series.length) :
    ∃ s tr r w, decompose t period ex iw = .ok (s, tr, r, w) ∧
      s.length = series.length ∧ tr.length = series.length ∧
      r.length = series.length ∧
      ∀ i, i < series.length →
        |s.getD i 0 + tr.getD i 0 + r.getD i 0 - series.getD i 0| ≤
          1 / 10000 * |series.getD i 0| := by
  obtain ⟨hs, ht, hw, hr⟩ :=
    fitCore_shape series period.toNat (effCfg (convert_params ex) period.toNat)
  refine ⟨_, _, _, _, decompose_eq_ok t series period ex iw hdec h2 hlen,
    hs, ht, ?_, ?_⟩
  · rw [hr, sub3_length, hs, ht]
    omega
  · intro i hi
    set res := fitCore series period.toNat (effCfg (convert_params ex) period.toNat)
    have h1 : i < res.seasonal.length := by omega
    have h2' : i < res.trend.length := by omega
    have hrem : res.remainder.getD i 0 =
        series.getD i 0 - res.seasonal.getD i 0 - res.trend.getD i 0 := by
      rw [hr]
      exact sub3_getD series res.seasonal res.trend i hi h1 h2'
    rw [hrem]
    rw [show res.seasonal.getD i 0 + res.trend.getD i 0 +
        (series.getD i 0 - res.seasonal.getD i 0 - res.trend.getD i 0) -
        series.getD i 0 = 0 by ring]
    simp only [abs_zero]
    positivity

/-- Witness for C1 at series `[1, 2, 1, 2]`, period 2. -/
theorem c1_reconstruction_witness :
    ∃ s tr r w,
      decompose (.list [.int 1, .int 2, .int 1, .int 2]) 2 {} false = .ok (s, tr, r, w) ∧
      s.length = 4 ∧ tr.length = 4 ∧ r.length = 4 := by
  obtain ⟨s, tr, r, w, hok, hs, ht, hrl, -⟩ :=
    c1_reconstruction _ [1, 2, 1, 2] 2 {} false to_vector_float_1212
      (by norm_num) (by norm_num [Int.toNat])
  exact ⟨s, tr, r, w, hok, hs, ht, hrl⟩

/-! ## Claims about the strength metrics -/

theorem popVar_nonneg (xs : List ℚ) : 0 ≤ popVar xs := by
  unfold popVar
  apply div_nonneg
  · apply List.sum_nonneg
    intro x hx
    obtain ⟨a, -, rfl⟩ := List.mem_map.mp hx
    positivity
  · positivity

theorem strength_ok_bounds (c r : List ℚ) (h : c.length = r.length) :
    ∃ v, strength c r = .ok v ∧
      v = (if popVar (ladd c r) = 0 then 0
        else max 0 (1 - popVar r / popVar (ladd c r))) ∧
      0 ≤ v ∧ v ≤ 1 ∧ (popVar (ladd c r) = 0 → v = 0) := by
  have hne : ¬c.length ≠ r.length := not_not_intro h
  by_cases hv : popVar (ladd c r) = 0
  · refine ⟨0, ?_, by rw [if_pos hv], le_refl 0, by norm_num, fun _ => rfl⟩
    unfold strength
    rw [if_neg hne]
    simp only [ladd] at hv
    rw [if_pos hv]
  · refine ⟨max 0 (1 - popVar r / popVar (ladd c r)), ?_, by rw [if_neg hv],
      le_max_left 0 _, ?_, fun h0 => absurd h0 hv⟩
    · unfold strength
      rw [if_neg hne]
      simp only [ladd] at hv ⊢
      rw [if_neg hv]
    · apply max_le (by norm_num)
      have h1 : 0 ≤ popVar r := popVar_nonneg r
      have h2 : 0 ≤ popVar (ladd c r) := popVar_nonneg _
      have h3 : 0 ≤ popVar r / popVar (ladd c r) := div_nonneg h1 h2
      linarith

/-- **C4.** With equal-length inputs, both strength NIFs succeed and return
`max(0, 1 − Var(remainder)/Var(component + remainder))` with population
variance, returning `0` outright when the denominator variance is zero, and
the returned value always lies in `[0, 1]`. -/
theorem c4_strength_bounds (s tr r : List ℚ) (hs : s.length = r.length)
    (htr : tr.length = r.length) :
    (∃ v, seasonal_strength s r = .ok v ∧
      v = (if popVar (ladd s r) = 0 then 0
        else max 0 (1 - popVar r / popVar (ladd s r))) ∧
      0 ≤ v ∧ v ≤ 1 ∧ (popVar (ladd s r) = 0 → v = 0)) ∧
    (∃ v, trend_strength tr r = .ok v ∧
      v = (if popVar (ladd tr r) = 0 then 0
        else max 0 (1 - popVar r / popVar (ladd tr r))) ∧
      0 ≤ v ∧ v ≤ 1 ∧ (popVar (ladd tr r) = 0 → v = 0)) :=
  ⟨strength_ok_bounds s r hs, strength_ok_bounds tr r htr⟩

/-- Witness for C4 at `seasonal = trend = [1, 2]`, `remainder = [3, 5]`. -/
theorem c4_strength_bounds_witness :
    (∃ v, seasonal_strength [1, 2] [3, 5] = .ok v ∧ 0 ≤ v ∧ v ≤ 1) ∧
    (∃ v, trend_strength [1, 2] [3, 5] = .ok v ∧ 0 ≤ v ∧ v ≤ 1) := by
  obtain ⟨⟨v, hok, -, h0, h1, -⟩, ⟨v', hok', -, h0', h1', -⟩⟩ :=
    c4_strength_bounds [1, 2] [1, 2] [3, 5] (by simp) (by simp)
  exact ⟨⟨v, hok, h0, h1⟩, ⟨v', hok', h0', h1'⟩⟩

/-- **C5.** Both strength NIFs fail (with an `InvalidArgument` error) when
the two component sequences differ in length. -/
theorem c5_length_mismatch_fails (s r : List ℚ) (h : s.length ≠ r.length) :
    (∃ e, seasonal_strength s r = .error e) ∧
    ∃ e, trend_strength s r = .error e := by
  constructor <;>
    · refine ⟨"components must have the same length", ?_⟩
      simp only [seasonal_strength, trend_strength]
      unfold strength
      rw [if_pos h]

/-- Witness for C5 at lengths 1 and 2. -/
theorem c5_length_mismatch_fails_witness :
    (∃ e, seasonal_strength [1] [2, 3] = .error e) ∧
    ∃ e, trend_strength [1] [2, 3] = .error e :=
  c5_length_mismatch_fails [1] [2, 3] (by simp)

/-! ## Claim about the weights of `fit_single` -/

/-- **C8.** For every successful `fit_single`, the weights component is empty
exactly when `robust` is disabled; with `robust` enabled it holds one
robustness weight per observation (and is in particular non-empty). -/
theorem c8_weights_robust (t : ErlSeries) (series : List ℚ) (period : ℤ)
    (ex : ExStlParams) (hdec : to_vector_float t = .ok series)
    (h2 : 2 ≤ period) (hlen : 2 * period.toNat ≤ series.length) :
    ∃ s tr r w, fit_single t period ex = .ok (s, tr, r, w) ∧
      (ex.robust.getD false = false → w = []) ∧
      (ex.robust.getD false = true → w.length = series.length ∧ w ≠ []) := by
  obtain ⟨hs, ht, hw, hr⟩ :=
    fitCore_shape series period.toNat (effCfg (convert_params ex) period.toNat)
  unfold fit_single
  cases hrob : ex.robust.getD false with
  | false =>
    have hok := decompose_eq_ok t series period ex false hdec h2 hlen
    simp only [Bool.false_eq_true, if_false] at hok
    exact ⟨_, _, _, _, hok, fun _ => rfl, fun hcontra => by simp at hcontra⟩
  | true =>
    have hok := decompose_eq_ok t series period ex true hdec h2 hlen
    simp only [if_true] at hok
    refine ⟨_, _, _, _, hok, fun hcontra => by simp at hcontra, fun _ => ⟨hw, ?_⟩⟩
    have hpos : 0 < (fitCore series period.toNat
        (effCfg (convert_params ex) period.toNat)).weights.length := by
      rw [hw]; omega
    exact List.ne_nil_of_length_pos hpos

/-- Witness for C8 with `robust` enabled on series `[1, 2, 1, 2]`. -/
theorem c8_weights_robust_witness :
    ∃ s tr r w,
      fit_single (.list [.int 1, .int 2, .int 1, .int 2]) 2 { robust := some true } =
        .ok (s, tr, r, w) ∧ w.length = 4 := by
  obtain ⟨s, tr, r, w, hok, -, himp⟩ :=
    c8_weights_robust _ [1, 2, 1, 2] 2 { robust := some true }
      to_vector_float_1212 (by norm_num) (by norm_num [Int.toNat])
  exact ⟨s, tr, r, w, hok, by simpa using (himp rfl).1⟩

/-! ## Claims about the series decoder -/

theorem exceptSeqBind_ok {α β : Type} (a : α) (f : α → Except String β) :
    (Except.ok a >>= f) = f a := rfl

theorem exceptSeqBind_error {α β : Type} (e : String) (f : α → Except String β) :
    ((Except.error e : Except String α) >>= f) = .error e := rfl

theorem decodeElem_good (t : ErlTerm) (h : goodElem t = true) :
    decodeElem t = .ok (elemVal t) := by
  cases t with
  | float q => rfl
  | int n =>
    simp only [goodElem] at h
    simp [decodeElem, elemVal, h]
  | other => simp [goodElem] at h

theorem decodeElem_bad (t : ErlTerm) (h : goodElem t = false) :
    decodeElem t = .error "List elements must be numbers" := by
  cases t with
  | float q => simp [goodElem] at h
  | int n =>
    simp only [goodElem] at h
    simp [decodeElem, h]
  | other => rfl

theorem mapMloop_all_good (xs : List ErlTerm) (acc : List ℚ)
    (h : ∀ t ∈ xs, goodElem t = true) :
    List.mapM.loop decodeElem xs acc = .ok (acc.reverse ++ xs.map elemVal) := by
  induction xs generalizing acc with
  | nil => simp only [List.mapM.loop, List.map_nil, List.append_nil]; rfl
  | cons a as ih =>
    rw [List.mapM.loop, decodeElem_good a (h a (by simp))]
    simp only [exceptSeqBind_ok]
    rw [ih _ (fun t ht => h t (List.mem_cons_of_mem a ht))]
    simp

theorem mapMloop_has_bad (xs : List ErlTerm) (acc : List ℚ)
    (h : ¬∀ t ∈ xs, goodElem t = true) :
    List.mapM.loop decodeElem xs acc = .error "List elements must be numbers" := by
  induction xs generalizing acc with
  | nil => simp at h
  | cons a as ih =>
    rw [List.mapM.loop]
    cases hg : goodElem a with
    | false => rw [decodeElem_bad a hg, exceptSeqBind_error]
    | true =>
      rw [decodeElem_good a hg]
      simp only [exceptSeqBind_ok]
      apply ih
      intro hall
      refine h fun t ht => ?_
      rcases List.mem_cons.mp ht with rfl | hmem
      · exact hg
      · exact hall t hmem

/-- **C9 (amended).** The decoder succeeds exactly when the series term is a
list whose elements are all floats or `int`-range integers, and then returns
the binary32 narrowing of each element's numeric value (integer terms
included); a non-list term or any other element is an `invalid_argument`. -/
theorem c9_decoder_characterization (s : ErlSeries) :
    ((∃ v, to_vector_float s = .ok v) ↔
      ∃ xs, s = .list xs ∧ ∀ t ∈ xs, goodElem t = true) ∧
    ∀ xs, s = .list xs → (∀ t ∈ xs, goodElem t = true) →
      to_vector_float s = .ok (xs.map elemVal) := by
  constructor
  · constructor
    · rintro ⟨v, hv⟩
      cases s with
      | nonList => simp [to_vector_float] at hv
      | list xs =>
        refine ⟨xs, rfl, ?_⟩
        by_contra hbad
        rw [show to_vector_float (.list xs) = List.mapM.loop decodeElem xs []
          from rfl] at hv
        rw [mapMloop_has_bad xs [] hbad] at hv
        exact absurd hv (by simp)
    · rintro ⟨xs, rfl, hgood⟩
      refine ⟨xs.map elemVal, ?_⟩
      show List.mapM.loop decodeElem xs [] = _
      rw [mapMloop_all_good xs [] hgood]
      simp
  · rintro xs rfl hgood
    show List.mapM.loop decodeElem xs [] = _
    rw [mapMloop_all_good xs [] hgood]
    simp

/-- Counterexample to C9 as stated: the integer `2^31` does not fit in a C
`int`, so `enif_get_int` fails and the element is rejected even though it is
an integer term. -/
theorem c9_big_int_rejected :
    to_vector_float (.list [.int (2 ^ 31)]) =
      .error "List elements must be numbers" := by
  norm_num [to_vector_float, List.mapM.loop, decodeElem, intFits]

/-- Witness for C9 (amended): an in-range integer and a float decode to their
narrowed values. -/
theorem c9_decoder_characterization_witness :
    to_vector_float (.list [.int 3, .float (5 / 2)]) =
      .ok ([ErlTerm.int 3, ErlTerm.float (5 / 2)].map elemVal) :=
  (c9_decoder_characterization _).2 _ rfl (by decide)

/-! ## Claims about `decompose_multi` -/

/-- **C10.** The weights slot of every `decompose_multi` outcome is the empty
list (the NIF returns an empty vector unconditionally on success, and the
slot of a failed call is empty by convention); in particular every successful
call has empty weights, whatever the `robust` flag. -/
theorem c10_multi_weights_empty (t : ErlSeries) (ps : List ℤ) (ex : ExStlParams) :
    multiWeights (decompose_multi t ps ex) = [] := by
  unfold decompose_multi
  cases htv : to_vector_float t with
  | error e => rw [exceptBind_error]; rfl
  | ok series =>
    simp only [exceptBind_ok]
    by_cases hemp : ps.isEmpty = true
    · rw [if_pos hemp]; rfl
    rw [if_neg hemp]
    cases hchk : checkPeriods series ps with
    | error e => rw [exceptBind_error]; rfl
    | ok qs =>
      simp only [exceptBind_ok]
      cases hm : mstlFit (convert_params ex) (max 1 (ex.iterations.getD 2).toNat)
        ex.lambda ex.seasonal_lengths series qs with
      | error e => rw [exceptBind_error]; rfl
      | ok r => rw [exceptBind_ok]; rfl

/-! ## Validation characterization for `decompose_multi` -/

theorem checkPeriods_ok_of (series : List ℚ) :
    ∀ ps : List ℤ, (∀ p ∈ ps, 2 ≤ p ∧ 2 * p.toNat ≤ series.length) →
      checkPeriods series ps = .ok (ps.map Int.toNat)
  | [], _ => rfl
  | p :: rest, h => by
    have hp := h p (by simp)
    simp only [checkPeriods]
    rw [if_neg (show ¬p < 2 by omega),
      if_neg (show ¬series.length < 2 * p.toNat by omega)]
    rw [checkPeriods_ok_of series rest fun q hq => h q (by simp [hq])]
    rfl

theorem checkPeriods_err (series : List ℚ) :
    ∀ ps : List ℤ, ¬(∀ p ∈ ps, 2 ≤ p ∧ 2 * p.toNat ≤ series.length) →
      ∃ e, checkPeriods series ps = .error e
  | [], h => absurd (by simp) h
  | p :: rest, h => by
    simp only [checkPeriods]
    by_cases h1 : p < 2
    · exact ⟨_, by rw [if_pos h1]⟩
    rw [if_neg h1]
    by_cases h2 : series.length < 2 * p.toNat
    · exact ⟨_, by rw [if_pos h2]⟩
    rw [if_neg h2]
    obtain ⟨e, he⟩ := checkPeriods_err series rest (by
      intro hall
      exact h fun q hq => by
        rcases List.mem_cons.mp hq with rfl | hm
        · exact ⟨by omega, by omega⟩
        · exact hall q hm)
    exact ⟨e, by rw [he, exceptMap_error]⟩

theorem mstlFit_ok_iff (stlp : StlParams) (iters : ℕ) (lam : Option ℚ)
    (slOpt : Option (List ℤ)) (y : List ℚ) (qs : List ℕ) :
    (∃ r, mstlFit stlp iters lam slOpt y qs = .ok r) ↔
      (qs ≠ [] ∧ (∀ q ∈ qs, 2 ≤ q ∧ 2 * q ≤ y.length) ∧
        (∀ sl, slOpt = some sl → sl.length = qs.length) ∧
        (lam.isSome = true → ∀ x ∈ y, 0 < x)) := by
  unfold mstlFit
  cases h1 : qs.isEmpty with
  | true =>
    have hq : qs = [] := by simpa using h1
    subst hq
    simp
  | false =>
    have hne : qs ≠ [] := by
      intro hq
      rw [hq] at h1
      simp at h1
    rw [if_neg (by simp [h1])]
    cases h2 : qs.any (fun p => p < 2) with
    | true =>
      rw [if_pos rfl]
      apply iff_of_false
      · rintro ⟨r, hr⟩
        simp at hr
      · rintro ⟨-, hall, -⟩
        obtain ⟨q, hq, hlt⟩ : ∃ q ∈ qs, q < 2 := by simpa using h2
        have := (hall q hq).1
        omega
    | false =>
      rw [if_neg (by simp)]
      cases h3 : qs.any (fun p => y.length < 2 * p) with
      | true =>
        rw [if_pos rfl]
        apply iff_of_false
        · rintro ⟨r, hr⟩
          simp at hr
        · rintro ⟨-, hall, -⟩
          obtain ⟨q, hq, hlt⟩ : ∃ q ∈ qs, y.length < 2 * q := by simpa using h3
          have := (hall q hq).2
          omega
      | false =>
        rw [if_neg (by simp)]
        cases h4 : slOpt.any (fun sl => sl.length != qs.length) with
        | true =>
          rw [if_pos rfl]
          apply iff_of_false
          · rintro ⟨r, hr⟩
            simp at hr
          · rintro ⟨-, -, hsl, -⟩
            cases hso : slOpt with
            | none => rw [hso] at h4; simp [Option.any] at h4
            | some sl =>
              have hlen := hsl sl hso
              rw [hso] at h4
              simp [Option.any, hlen] at h4
        | false =>
          rw [if_neg (by simp)]
          cases h5 : lam.isSome && !(y.all fun x => 0 < x) with
          | true =>
            rw [if_pos rfl]
            apply iff_of_false
            · rintro ⟨r, hr⟩
              simp at hr
            · rintro ⟨-, -, -, hlam⟩
              rw [Bool.and_eq_true] at h5
              obtain ⟨x, hx, hpos⟩ : ∃ x ∈ y, ¬0 < x := by simpa using h5.2
              exact hpos (hlam h5.1 x hx)
          | false =>
            rw [if_neg (by simp)]
            apply iff_of_true
            · exact ⟨_, rfl⟩
            · refine ⟨hne, ?_, ?_, ?_⟩
              · intro q hq
                have hc2 : ∀ q ∈ qs, ¬q < 2 := by simpa using h2
                have hc3 : ∀ q ∈ qs, ¬y.length < 2 * q := by simpa using h3
                exact ⟨by have := hc2 q hq; omega, by have := hc3 q hq; omega⟩
              · intro sl hso
                rw [hso] at h4
                simpa [Option.any] using h4
              · intro hlam x hx
                rw [Bool.and_eq_false_iff] at h5
                rcases h5 with h5 | h5
                · rw [hlam] at h5; simp at h5
                · have : ∀ x ∈ y, 0 < x := by simpa using h5
                  exact this x hx

/-- Counterexample to C3 as stated: with periods `[2]` on a four-element
series none of the claim's three failure conditions holds, yet the call fails
because the `seasonal_lengths` override has length 2 while one period was
requested. -/
theorem c3_iff_counterexample :
    decompose_multi (.list [.int 1, .int 2, .int 1, .int 2]) [2]
      { seasonal_lengths := some [3, 5] } =
      .error "seasonal_lengths must have the same length as periods" := by
  unfold decompose_multi
  rw [to_vector_float_1212]
  simp only [exceptBind_ok]
  norm_num [checkPeriods, mstlFit, exceptBind_ok, exceptMap_ok, Option.any, Int.toNat]
  rw [exceptBind_error]

/-- **C3 (amended).** On a well-decoded series, `decompose_multi` succeeds
iff the period list is non-empty, every period is at least 2 and at most half
the series length, a present `seasonal_lengths` override matches the number
of periods, and a requested power transform gets a strictly positive series;
equivalently, it fails (with an `InvalidArgument` error, before any
decomposition work and hence with no partial result) exactly when one of
those validations fails. -/
theorem c3_multi_validation (t : ErlSeries) (ps : List ℤ) (ex : ExStlParams)
    (series : List ℚ) (hdec : to_vector_float t = .ok series) :
    (∃ out, decompose_multi t ps ex = .ok out) ↔
      (ps ≠ [] ∧ (∀ p ∈ ps, 2 ≤ p ∧ 2 * p.toNat ≤ series.length) ∧
        (∀ sl, ex.seasonal_lengths = some sl → sl.length = ps.length) ∧
        (ex.lambda.isSome = true → ∀ x ∈ series, 0 < x)) := by
  unfold decompose_multi
  rw [hdec]
  simp only [exceptBind_ok]
  by_cases hemp : ps.isEmpty = true
  · rw [if_pos hemp]
    have : ps = [] := by simpa using hemp
    subst this
    simp
  rw [if_neg hemp]
  have hne : ps ≠ [] := by simpa using hemp
  by_cases hall : ∀ p ∈ ps, 2 ≤ p ∧ 2 * p.toNat ≤ series.length
  · rw [checkPeriods_ok_of series ps hall]
    simp only [exceptBind_ok]
    have hiff := mstlFit_ok_iff (convert_params ex)
      (max 1 (ex.iterations.getD 2).toNat) ex.lambda ex.seasonal_lengths series
      (ps.map Int.toNat)
    constructor
    · rintro ⟨out, hout⟩
      cases hm : mstlFit (convert_params ex) (max 1 (ex.iterations.getD 2).toNat)
        ex.lambda ex.seasonal_lengths series (ps.map Int.toNat) with
      | error e =>
        rw [hm, exceptBind_error] at hout
        exact absurd hout (by simp)
      | ok r =>
        obtain ⟨-, -, hsl, hlam⟩ := hiff.mp ⟨r, hm⟩
        refine ⟨hne, hall, ?_, hlam⟩
        intro sl hso
        have := hsl sl hso
        rwa [List.length_map] at this
    · rintro ⟨-, -, hsl, hlam⟩
      have hmap : ∀ q ∈ ps.map Int.toNat, 2 ≤ q ∧ 2 * q ≤ series.length := by
        intro q hq
        obtain ⟨p, hp, rfl⟩ := List.mem_map.mp hq
        have := hall p hp
        exact ⟨by omega, by omega⟩
      have hsl' : ∀ sl, ex.seasonal_lengths = some sl →
          sl.length = (ps.map Int.toNat).length := by
        intro sl hso
        rw [List.length_map]
        exact hsl sl hso
      obtain ⟨r, hm⟩ := hiff.mpr ⟨by simpa using hne, hmap, hsl', hlam⟩
      exact ⟨_, by rw [hm, exceptBind_ok]⟩
  · obtain ⟨e, he⟩ := checkPeriods_err series ps hall
    rw [he, exceptBind_error]
    apply iff_of_false
    · rintro ⟨out, hout⟩
      simp at hout
    · rintro ⟨-, hall', -⟩
      exact hall hall'

/-- Witness for C3 (amended): periods `[2]` on the series `[1, 2, 1, 2]` with
default parameters pass every validation, so the call succeeds. -/
theorem c3_multi_validation_witness :
    ∃ out, decompose_multi (.list [.int 1, .int 2, .int 1, .int 2]) [2] {} = .ok out := by
  refine (c3_multi_validation _ [2] {} [1, 2, 1, 2] to_vector_float_1212).mpr
    ⟨by simp, ?_, by simp, by simp⟩
  intro p hp
  rcases List.mem_singleton.mp hp with rfl
  norm_num [Int.toNat]

/-- **C6.** Whenever the `seasonal_lengths` override is present and its
length differs from the number of requested periods, `decompose_multi` fails
(with an `InvalidArgument` error), whatever the other arguments. -/
theorem c6_seasonal_lengths_mismatch (t : ErlSeries) (ps : List ℤ)
    (ex : ExStlParams) (sl : List ℤ) (hso : ex.seasonal_lengths = some sl)
    (hlen : sl.length ≠ ps.length) :
    ∃ e, decompose_multi t ps ex = .error e := by
  cases htv : to_vector_float t with
  | error e =>
    exact ⟨e, by unfold decompose_multi; rw [htv, exceptBind_error]⟩
  | ok series =>
    unfold decompose_multi
    rw [htv]
    simp only [exceptBind_ok]
    by_cases hemp : ps.isEmpty = true
    · exact ⟨_, by rw [if_pos hemp]⟩
    rw [if_neg hemp]
    by_cases hall : ∀ p ∈ ps, 2 ≤ p ∧ 2 * p.toNat ≤ series.length
    · rw [checkPeriods_ok_of series ps hall]
      simp only [exceptBind_ok]
      cases hm : mstlFit (convert_params ex) (max 1 (ex.iterations.getD 2).toNat)
        ex.lambda ex.seasonal_lengths series (ps.map Int.toNat) with
      | error e => exact ⟨e, by rw [exceptBind_error]⟩
      | ok r =>
        exfalso
        obtain ⟨-, -, hsl, -⟩ := (mstlFit_ok_iff _ _ _ _ _ _).mp ⟨r, hm⟩
        have := hsl sl hso
        rw [List.length_map] at this
        exact hlen this
    · obtain ⟨e, he⟩ := checkPeriods_err series ps hall
      rw [he, exceptBind_error]
      exact ⟨e, rfl⟩

/-- Witness for C6: one period but a two-element override list fails. -/
theorem c6_seasonal_lengths_mismatch_witness :
    ∃ e, decompose_multi (.list [.int 1, .int 2, .int 1, .int 2]) [2]
      { seasonal_lengths := some [7, 11] } = .error e :=
  c6_seasonal_lengths_mismatch _ [2] { seasonal_lengths := some [7, 11] }
    [7, 11] rfl (by simp)

end ExStl
